import Mathlib

/-!
Verification of the upzload storage / share-link core (src/server.js).

The JavaScript source is shallowly embedded: the filesystem is a pair of a
directory set and an association list of file paths to contents, Node path
strings are lists of segments with the normalization performed by path.join
(resolution of "." and ".." segments), and each express route handler
becomes a pure Lean function from its inputs and the current filesystem to
a result and an updated filesystem.  Randomness (crypto.randomBytes) and
the multipart parse result (formidable) are passed as explicit inputs.
The generated download-page HTML is abstracted to its semantic content:
the owner, the folder id and the list of linked file names (the spec
declares the concrete HTML a presentation concern, out of scope).
-/

/-- A filesystem path, as the list of its segments. -/
abbrev FPath := List String

/-- Split a list of characters on the slash character, mirroring how Node
splits a path string into segments. -/
def splitAux : List Char → List Char → List String
  | [], cur => [String.mk cur.reverse]
  | c :: rest, cur =>
    if c = '/' then String.mk cur.reverse :: splitAux rest []
    else splitAux rest (c :: cur)

/-- The nonempty segments of a path string. -/
def splitSegs (s : String) : List String :=
  (splitAux s.data []).filter (fun x => x ≠ "")

/-- One step of Node path normalization: "." is dropped and ".." removes the
last segment (kept literally when there is nothing left to remove), as
path.join does. -/
def joinSeg (acc : List String) (seg : String) : List String :=
  if seg = "." then acc
  else if seg = ".." then
    match acc.getLast? with
    | none => [".."]
    | some s => if s = ".." then acc ++ [".."] else acc.dropLast
  else acc ++ [seg]

/-- Embedding of Node path.join(base, arg): the argument is split into
segments which are folded onto the base with normalization. -/
def joinName (base : FPath) (arg : String) : FPath :=
  (splitSegs arg).foldl joinSeg base

/-- A string that is one single ordinary path segment: splitting it returns
it unchanged and it is not one of the special dot segments. -/
def plainSeg (s : String) : Prop :=
  splitSegs s = [s] ∧ s ≠ "." ∧ s ≠ ".."

/-- Strip a base path from the front of a path, returning the remainder. -/
def dropBase : FPath → FPath → Option FPath
  | [], p => some p
  | _ :: _, [] => none
  | a :: bs, c :: ps => if a = c then dropBase bs ps else none

/-- Whether a path lies at or below a base path. -/
def pathHasBase (base p : FPath) : Bool :=
  (dropBase base p).isSome

/-- The name of an immediate child of a directory, when the path is one. -/
def childNameOf (dir p : FPath) : Option String :=
  match dropBase dir p with
  | some (x :: []) => some x
  | _ => none

/-- All the nonempty ancestor paths of a path, the path itself included,
accumulated from a given stem. -/
def ancestorsFrom (acc : FPath) : List String → List FPath
  | [] => []
  | s :: rest => (acc ++ [s]) :: ancestorsFrom (acc ++ [s]) rest

/-- The directories mkdirSync with the recursive option creates for a path. -/
def allAncestors (p : FPath) : List FPath :=
  ancestorsFrom [] p

/-- Boolean list membership over any type with decidable equality. -/
def memB {α : Type} [DecidableEq α] : α → List α → Bool
  | _, [] => false
  | a, b :: rest => if a = b then true else memB a rest

/-- Keep the first occurrence of every element, dropping later repeats. -/
def dedupAux (seen : List String) : List String → List String
  | [] => []
  | s :: rest =>
    if memB s seen then dedupAux seen rest
    else s :: dedupAux (s :: seen) rest

/-- Deduplicate a list of names, preserving first occurrences. -/
def dedupStr (l : List String) : List String :=
  dedupAux [] l

/-- First-match association lookup. -/
def lookupAssoc {α β : Type} [DecidableEq α] : List (α × β) → α → Option β
  | [], _ => none
  | e :: rest, k => if e.1 = k then some e.2 else lookupAssoc rest k

/-- Remove every binding for a key from an association list. -/
def removeKey {α β : Type} [DecidableEq α] : List (α × β) → α → List (α × β)
  | [], _ => []
  | e :: rest, k => if e.1 = k then removeKey rest k else e :: removeKey rest k

/-- Contents of a stored file: either raw uploaded bytes, or the generated
index document, abstracted to the owner, folder id and linked file names it
embeds. -/
inductive FileData where
  | bytes (data : String)
  | index (owner : String) (folder : String) (names : List String)
deriving DecidableEq

/-- Whether an optional file content is the generated index document. -/
def isIndexDoc : Option FileData → Bool
  | some (FileData.index _ _ _) => true
  | _ => false

/-- The filesystem: the set of existing directories and the file contents. -/
structure FS where
  dirs : List FPath
  files : List (FPath × FileData)
deriving DecidableEq

/-- fs.existsSync: the path is a directory or a file. -/
def FS.existsPath (fs : FS) (p : FPath) : Bool :=
  memB p fs.dirs || memB p (fs.files.map (fun e => e.1))

/-- Look up the content stored at a file path. -/
def FS.lookupFile (fs : FS) (p : FPath) : Option FileData :=
  lookupAssoc fs.files p

/-- fs.writeFileSync: store content at a path, replacing previous content. -/
def FS.writeFile (fs : FS) (p : FPath) (c : FileData) : FS :=
  { fs with files := (p, c) :: fs.files }

/-- fs.renameSync on a file: move the content from the source path to the
destination path, overwriting the destination. -/
def FS.renameFile (fs : FS) (src dst : FPath) : FS :=
  match lookupAssoc fs.files src with
  | none => fs
  | some c => { fs with files := (dst, c) :: removeKey fs.files src }

/-- Add a directory path to the set if it is not already there. -/
def insertPath (ds : List FPath) (p : FPath) : List FPath :=
  if memB p ds then ds else ds ++ [p]

/-- fs.mkdirSync with the recursive option: create the directory and every
missing ancestor. -/
def FS.mkdirRec (fs : FS) (p : FPath) : FS :=
  { fs with dirs := (allAncestors p).foldl insertPath fs.dirs }

/-- fs.readdirSync: names of the immediate children of a directory, taken
from the directory set and the file table. -/
def FS.readdir (fs : FS) (dir : FPath) : List String :=
  dedupStr ((fs.dirs.filterMap (childNameOf dir)) ++
    ((fs.files.map (fun e => e.1)).filterMap (childNameOf dir)))

/-- A presentation tree node, as produced by listFilesRecursive. -/
inductive TreeNode where
  | file (name : String) (p : Option FPath)
  | directory (name : String) (children : List TreeNode)

/-- Embedding of listFilesRecursive from src/server.js.  Recursion is fueled
because the source recursion is bounded only by the finite filesystem depth.
In the source a missing path makes statSync throw; the model is meaningful
only for existing paths, where the source takes the same branches. -/
def listFiles (fs : FS) : Nat → FPath → List TreeNode
  | 0, _ => []
  | Nat.succ fuel, dir =>
    if memB dir fs.dirs then
      (fs.readdir dir).map (fun item =>
        if memB (dir ++ [item]) fs.dirs then
          TreeNode.directory item (listFiles fs fuel (dir ++ [item]))
        else TreeNode.file item (some (dir ++ [item])))
    else [TreeNode.file (dir.getLast?.getD "") none]

/-- The UPLOAD_DIR constant of src/server.js. -/
def UPLOAD_DIR : String := "./uploads"

/-- The normalized uploads root path. -/
def uploadRoot : FPath := joinName [] UPLOAD_DIR

/-- path.join(UPLOAD_DIR, username): the root directory of a namespace. -/
def userDirOf (username : String) : FPath :=
  joinName uploadRoot username

/-- path.join(userDir, uploadFolderName): the share folder path for one
drawn folder id. -/
def uploadDest (username draw : String) : FPath :=
  joinName (userDirOf username) draw

/-- The guarded directory creation that src/server.js performs for a user
directory: if (!fs.existsSync(userDir)) fs.mkdirSync(userDir, recursive). -/
def ensureNamespace (fs : FS) (username : String) : FS :=
  if fs.existsPath (userDirOf username) then fs
  else fs.mkdirRec (userDirOf username)

/-- Outcome of the POST /signup handler. -/
inductive SignupResult where
  | invalidInput
  | alreadyExists
  | ok
deriving DecidableEq

/-- The persistent server state: the users table (username to stored
password hash) and the filesystem. -/
structure ServerState where
  users : List (String × String)
  fs : FS
deriving DecidableEq

/-- Embedding of the POST /signup handler.  The bcrypt hash is an external
collaborator, passed as a function argument.  Session assignment and the
redirect are presentation effects outside the storage core. -/
def signup (hash : String → String) (st : ServerState)
    (username password : String) : SignupResult × ServerState :=
  if username = "" ∨ password = "" then (SignupResult.invalidInput, st)
  else
    match lookupAssoc st.users username with
    | some _ => (SignupResult.alreadyExists, st)
    | none =>
      (SignupResult.ok,
       { users := (username, hash password) :: st.users,
         fs := ensureNamespace st.fs username })

/-- One uploaded file as formidable reports it: the client-supplied original
name, the generated temporary basename formidable stored it under inside the
upload directory, and its bytes. -/
structure UFile where
  originalFilename : String
  tmpName : String
  content : String
deriving DecidableEq

/-- The parsed multipart files object: field key to list of files. -/
abbrev Batch := List (String × List UFile)

/-- Outcome of the POST /api/upload handler.  crash is an uncaught TypeError
thrown inside the parse callback (indexing past the end of a file array). -/
inductive UploadResult where
  | uploadFailed
  | emptyBatch
  | crash
  | success (folder : String)
deriving DecidableEq

/-- The temporary files formidable writes into the upload directory during
parsing, before the handler body runs. -/
def writeTmpFiles (up : FPath) (fs : FS) (batch : Batch) : FS :=
  batch.foldl
    (fun acc kv =>
      kv.2.foldl
        (fun acc2 f => acc2.writeFile (up ++ [f.tmpName]) (FileData.bytes f.content))
        acc)
    fs

/-- The rename loop of the upload handler: for each field key, file[0] is
renamed from its temporary path to path.join(uploadPath, originalFilename).
An empty file array makes file[0] undefined and the handler throw. -/
def moveAll (up : FPath) : FS → Batch → Except FS FS
  | fs, [] => Except.ok fs
  | fs, kv :: rest =>
    match kv.2.head? with
    | none => Except.error fs
    | some f =>
      moveAll up (fs.renameFile (up ++ [f.tmpName]) (joinName up f.originalFilename)) rest

/-- The file object the index generation selects for the i-th field key:
files[key][i], where i is the position of the key in fileKeys. -/
def indexEntries (i : Nat) : Batch → List (Option UFile)
  | [] => []
  | kv :: rest => kv.2.get? i :: indexEntries (i + 1) rest

/-- Collect a list of optional values, failing on the first missing one,
as the map in the source throws on the first undefined file object. -/
def collectSome {α : Type} : List (Option α) → Option (List α)
  | [] => some []
  | none :: _ => none
  | some a :: rest =>
    match collectSome rest with
    | none => none
    | some l => some (a :: l)

/-- The file names the generated index document links, or none when the
fileKeys.map of the source, (key, i) => files[key][i], dereferences undefined. -/
def indexNames (batch : Batch) : Option (List String) :=
  (collectSome (indexEntries 0 batch)).map (fun l => l.map (fun f => f.originalFilename))

/-- Embedding of the POST /api/upload handler.  The random folder id draw
and the parse outcome are explicit inputs; the authenticated session user is
userId.  The folder is created before parsing, exactly as in the source. -/
def uploadHandler (fs0 : FS) (userId draw : String) (parseOk : Bool)
    (batch : Batch) : UploadResult × FS :=
  let fs2 := (ensureNamespace fs0 userId).mkdirRec (uploadDest userId draw)
  if parseOk then
    let fs3 := writeTmpFiles (uploadDest userId draw) fs2 batch
    if batch.length = 0 then (UploadResult.emptyBatch, fs3)
    else
      match moveAll (uploadDest userId draw) fs3 batch with
      | Except.error fsc => (UploadResult.crash, fsc)
      | Except.ok fs4 =>
        match indexNames batch with
        | none => (UploadResult.crash, fs4)
        | some names =>
          (UploadResult.success draw,
           fs4.writeFile (uploadDest userId draw ++ ["index.html"])
             (FileData.index userId draw names))
  else (UploadResult.uploadFailed, fs2)

/-- Outcome of the GET /download/:user/:folder/:filename handler for an
authenticated session. -/
inductive DownloadResult where
  | forbidden
  | notFound
  | ok (p : FPath)
deriving DecidableEq

/-- path.join(UPLOAD_DIR, user, folder, filename) as the download route
computes it. -/
def resolvedDownloadPath (user folder filename : String) : FPath :=
  joinName (joinName (joinName uploadRoot user) folder) filename

/-- Embedding of the GET /download/:user/:folder/:filename handler, after
requireLogin has established the session user.  The ownership comparison
comes first, then the existence check, then the resolved path is served. -/
def downloadHandler (fs : FS) (sessionUserId user folder filename : String) :
    DownloadResult :=
  if sessionUserId ≠ user then DownloadResult.forbidden
  else
    if fs.existsPath (resolvedDownloadPath user folder filename) then
      DownloadResult.ok (resolvedDownloadPath user folder filename)
    else DownloadResult.notFound

/-- Embedding of the express.static(UPLOAD_DIR) middleware mounted at
/uploads (line 29 of src/server.js): it takes no session and no identity,
rejects paths containing a ".." segment, and otherwise serves the file at
the root joined with the request path. -/
def staticServe (fs : FS) (urlTail : String) : Option FileData :=
  if memB ".." (splitSegs urlTail) then none
  else fs.lookupFile (joinName uploadRoot urlTail)

/-- Fixture: an empty filesystem. -/
def fsE : FS := ⟨[], []⟩

/-- Fixture: the uploads root with the namespace of user alice. -/
def fsAlice : FS := ⟨[["uploads"], ["uploads", "alice"]], []⟩

/-- Fixture: namespaces for alice and bob, with one file owned by bob. -/
def fsTwoUsers : FS :=
  ⟨[["uploads"], ["uploads", "alice"], ["uploads", "bob"]],
   [(["uploads", "bob", "secret.txt"], FileData.bytes "S")]⟩

/-- Fixture: alice already owns a share folder abc holding old.txt, the
collision target for the folder id draw. -/
def fsColl : FS :=
  ⟨[["uploads"], ["uploads", "alice"], ["uploads", "alice", "abc"]],
   [(["uploads", "alice", "abc", "old.txt"], FileData.bytes "OLD")]⟩

/-- Fixture: alice owns share folder abc holding f.txt, reachable through
the static middleware. -/
def fsStat : FS :=
  ⟨[["uploads"], ["uploads", "alice"], ["uploads", "alice", "abc"]],
   [(["uploads", "alice", "abc", "f.txt"], FileData.bytes "X")]⟩

/-- Fixture: a batch of two files posted under one multipart field key. -/
def batchTwo : Batch :=
  [("files", [UFile.mk "a.txt" "tmp1" "A", UFile.mk "b.txt" "tmp2" "B"])]

/-- Fixture: a single uploaded file whose client-supplied name is
index.html. -/
def batchIdx : Batch := [("files", [UFile.mk "index.html" "tmp1" "EVIL"])]

/-- Fixture: a single uploaded file whose client-supplied name climbs out
of the allocated folder. -/
def batchEsc : Batch := [("f", [UFile.mk "../escape.txt" "tmpA" "DATA"])]

/-- Boolean membership agrees with list membership. -/
theorem memB_iff_mem {α : Type} [DecidableEq α] (a : α) (l : List α) :
    memB a l = true ↔ a ∈ l := by
  induction l with
  | nil => simp [memB]
  | cons b rest ih =>
    by_cases h : a = b
    · simp [memB, h]
    · simp [memB, h, ih]

/-- Membership across list append for Boolean membership. -/
theorem memB_append {α : Type} [DecidableEq α] (a : α) (l1 l2 : List α) :
    memB a (l1 ++ l2) = (memB a l1 || memB a l2) := by
  induction l1 with
  | nil => simp [memB]
  | cons b rest ih =>
    by_cases h : a = b
    · simp [memB, h]
    · simp [memB, h, ih]

/-- Inserting a path preserves and adds Boolean membership. -/
theorem memB_insertPath (q p : FPath) (ds : List FPath) :
    memB q (insertPath ds p) = true ↔ (memB q ds = true ∨ q = p) := by
  unfold insertPath
  by_cases hp : memB p ds = true
  · rw [if_pos hp]
    constructor
    · exact fun h => Or.inl h
    · intro h
      cases h with
      | inl h => exact h
      | inr h => exact h ▸ hp
  · rw [if_neg hp, memB_append]
    by_cases hqp : q = p
    · simp [memB, hqp]
    · simp [memB, hqp]

/-- Folding path insertions preserves Boolean membership. -/
theorem memB_foldl_insertPath_of_memB (q : FPath) :
    ∀ (l : List FPath) (ds : List FPath), memB q ds = true →
      memB q (l.foldl insertPath ds) = true := by
  intro l
  induction l with
  | nil => intro ds h; simpa using h
  | cons p rest ih =>
    intro ds h
    exact ih (insertPath ds p) ((memB_insertPath q p ds).mpr (Or.inl h))

/-- Every inserted path is a member after the fold. -/
theorem memB_foldl_insertPath_of_mem (q : FPath) :
    ∀ (l : List FPath) (ds : List FPath), q ∈ l →
      memB q (l.foldl insertPath ds) = true := by
  intro l
  induction l with
  | nil => intro ds h; cases h
  | cons p rest ih =>
    intro ds h
    cases h with
    | head =>
      exact memB_foldl_insertPath_of_memB q rest (insertPath ds q)
        ((memB_insertPath q q ds).mpr (Or.inr rfl))
    | tail _ h => exact ih (insertPath ds p) h

/-- A nonempty path is among the ancestors accumulated from any stem. -/
theorem self_mem_ancestorsFrom :
    ∀ (l : List String) (acc : FPath), l ≠ [] → (acc ++ l) ∈ ancestorsFrom acc l := by
  intro l
  induction l with
  | nil => intro acc h; exact absurd rfl h
  | cons s rest ih =>
    intro acc _
    cases hr : rest with
    | nil => simp [ancestorsFrom]
    | cons t ts =>
      have h2 := ih (acc ++ [s]) (by simp [hr])
      rw [hr] at h2
      have h3 : acc ++ s :: t :: ts = (acc ++ [s]) ++ t :: ts := by simp
      rw [show ancestorsFrom acc (s :: t :: ts) =
            (acc ++ [s]) :: ancestorsFrom (acc ++ [s]) (t :: ts) from rfl, h3]
      exact List.mem_cons_of_mem _ h2

/-- mkdirSync recursive makes the requested directory exist. -/
theorem mkdirRec_dirs_mem (fs : FS) (p : FPath) (h : p ≠ []) :
    memB p (fs.mkdirRec p).dirs = true := by
  unfold FS.mkdirRec allAncestors
  exact memB_foldl_insertPath_of_mem p (ancestorsFrom [] p) fs.dirs
    (by simpa using self_mem_ancestorsFrom p [] h)

/-- mkdirSync does not touch the file table. -/
theorem mkdirRec_files (fs : FS) (p : FPath) : (fs.mkdirRec p).files = fs.files := rfl

/-- Namespace creation does not touch the file table. -/
theorem ensureNamespace_files (fs : FS) (u : String) :
    (ensureNamespace fs u).files = fs.files := by
  unfold ensureNamespace
  by_cases h : fs.existsPath (userDirOf u) = true
  · simp [h]
  · simp [h, mkdirRec_files]

/-- Looking up a freshly written file. -/
theorem lookupFile_write (fs : FS) (q p : FPath) (c : FileData) :
    (fs.writeFile q c).lookupFile p = if q = p then some c else fs.lookupFile p := rfl

/-- Removing a key removes exactly that key from lookups. -/
theorem lookupAssoc_removeKey {α β : Type} [DecidableEq α]
    (l : List (α × β)) (s k : α) :
    lookupAssoc (removeKey l s) k = if k = s then none else lookupAssoc l k := by
  induction l with
  | nil => simp [removeKey, lookupAssoc]
  | cons e rest ih =>
    by_cases hes : e.1 = s
    · by_cases hks : k = s
      · rw [hks] at ih ⊢
        simp only [if_pos rfl] at ih ⊢
        simpa [removeKey, hes] using ih
      · have hek : ¬ e.1 = k := fun hc => hks (by rw [← hc, hes])
        have hsk : ¬ s = k := fun hc => hks hc.symm
        simp [removeKey, lookupAssoc, hes, hks, hek, hsk, ih]
    · by_cases hek : e.1 = k
      · have hks : ¬ k = s := fun hc => hes (by rw [hek, hc])
        simp [removeKey, lookupAssoc, hes, hek, hks]
      · simp [removeKey, lookupAssoc, hes, hek, ih]

/-- Looking up a file after a rename. -/
theorem lookupFile_rename (fs : FS) (src dst p : FPath) :
    (fs.renameFile src dst).lookupFile p =
      match lookupAssoc fs.files src with
      | none => fs.lookupFile p
      | some c => if dst = p then some c else
          if p = src then none else fs.lookupFile p := by
  unfold FS.renameFile FS.lookupFile
  cases h : lookupAssoc fs.files src with
  | none => simp
  | some c =>
    simp only []
    by_cases hd : dst = p
    · simp [lookupAssoc, hd]
    · by_cases hs : p = src
      · simp [lookupAssoc, hd, hs, lookupAssoc_removeKey]
      · simp [lookupAssoc, hd, hs, lookupAssoc_removeKey]

/-- Joining a segment that is neither dot form appends it. -/
theorem joinSeg_notdots (acc : FPath) (s : String) (h1 : s ≠ ".") (h2 : s ≠ "..") :
    joinSeg acc s = acc ++ [s] := by
  simp [joinSeg, h1, h2]

/-- Joining a plain single-segment name appends it to the base. -/
theorem joinName_plain (b : FPath) (s : String) (h : plainSeg s) :
    joinName b s = b ++ [s] := by
  rcases h with ⟨hs, h1, h2⟩
  rw [joinName, hs]
  simp [joinSeg_notdots, h1, h2]

/-- Folding segments free of ".." onto a base only ever extends the base. -/
theorem foldl_joinSeg_extends :
    ∀ (segs : List String) (acc : FPath), memB ".." segs = false →
      ∃ r, segs.foldl joinSeg acc = acc ++ r := by
  intro segs
  induction segs with
  | nil => intro acc _; exact ⟨[], by simp⟩
  | cons s rest ih =>
    intro acc h
    rw [show memB ".." (s :: rest) = if ".." = s then true else memB ".." rest from rfl] at h
    by_cases hds : ".." = s
    · rw [if_pos hds] at h; cases h
    · rw [if_neg hds] at h
      have hs2 : s ≠ ".." := fun hc => hds hc.symm
      by_cases hd : s = "."
      · have hstep : joinSeg acc s = acc := by simp [joinSeg, hd]
        rcases ih acc h with ⟨r, hr⟩
        exact ⟨r, by rw [List.foldl_cons, hstep, hr]⟩
      · have hstep : joinSeg acc s = acc ++ [s] := joinSeg_notdots acc s hd hs2
        rcases ih (acc ++ [s]) h with ⟨r, hr⟩
        exact ⟨[s] ++ r, by rw [List.foldl_cons, hstep, hr, List.append_assoc]⟩

/-- Stripping a base from an extension of itself leaves the extension. -/
theorem dropBase_append : ∀ (b r : FPath), dropBase b (b ++ r) = some r := by
  intro b
  induction b with
  | nil => intro r; rfl
  | cons a bs ih => intro r; simp [dropBase, ih]

/-- An extension of a base path lies below it. -/
theorem pathHasBase_append (b r : FPath) : pathHasBase b (b ++ r) = true := by
  rw [pathHasBase, dropBase_append]; rfl

/-- The immediate child name of a one-segment extension. -/
theorem childNameOf_append (dir : FPath) (x : String) :
    childNameOf dir (dir ++ [x]) = some x := by
  rw [childNameOf, dropBase_append]

/-- Deduplication keeps every element not yet seen. -/
theorem mem_dedupAux :
    ∀ (l seen : List String) (a : String), a ∈ l → memB a seen = false →
      a ∈ dedupAux seen l := by
  intro l
  induction l with
  | nil => intro seen a h _; cases h
  | cons s rest ih =>
    intro seen a h hseen
    rw [show dedupAux seen (s :: rest) =
      if memB s seen then dedupAux seen rest
      else s :: dedupAux (s :: seen) rest from rfl]
    by_cases hs : memB s seen = true
    · rw [if_pos hs]
      cases h with
      | head => exact absurd hs (by rw [hseen]; simp)
      | tail _ h2 => exact ih seen a h2 hseen
    · rw [if_neg hs]
      by_cases has : a = s
      · exact has ▸ List.mem_cons_self _ _
      · cases h with
        | head => exact absurd rfl has
        | tail _ h2 =>
          refine List.mem_cons_of_mem _ (ih (s :: seen) a h2 ?_)
          rw [show memB a (s :: seen) = if a = s then true else memB a seen from rfl,
            if_neg has, hseen]

/-- A directory child contributed by the directory set shows up in
readdirSync. -/
theorem memB_readdir_of_dir (fs : FS) (dir p : FPath) (x : String)
    (hmem : p ∈ fs.dirs) (hchild : childNameOf dir p = some x) :
    memB x (fs.readdir dir) = true := by
  rw [memB_iff_mem, FS.readdir, dedupStr]
  refine mem_dedupAux _ [] x ?_ rfl
  exact List.mem_append_left _ (List.mem_filterMap.mpr ⟨p, hmem, hchild⟩)

/-- Claim C9 (confirmed): in the download route the ownership check runs
before the existence check, so a caller whose session identity differs from
the owner parameter receives Forbidden for every filesystem state and every
(folder, filename) pair — never NotFound — and the route leaks no existence
information about the files of another user. -/
theorem c9_forbidden_before_notfound (fs : FS) (caller owner folder filename : String)
    (h : caller ≠ owner) :
    downloadHandler fs caller owner folder filename = DownloadResult.forbidden := by
  rw [downloadHandler, if_pos h]

/-- Witness for C9: the request of bob for a pair of alice on a filesystem where the
requested path does not even exist is still Forbidden, not NotFound. -/
theorem c9_forbidden_before_notfound_witness :
    downloadHandler fsE "bob" "alice" "abc" "f.txt" = DownloadResult.forbidden :=
  c9_forbidden_before_notfound fsE "bob" "alice" "abc" "f.txt" (by decide)

/-- Counterexample to claim C1 as stated: the success path of the download
route is not always under the namespace of the owner.  Authenticated alice
requests /download/alice/../bob; the ownership check passes, the resolved
path exists, and the route resolves to the namespace root of bob — a path that
that is not under the namespace of alice. -/
theorem c1_counterexample :
    downloadHandler fsTwoUsers "alice" "alice" ".." "bob" =
      DownloadResult.ok ["uploads", "bob"] ∧
    pathHasBase (userDirOf "alice") ["uploads", "bob"] = false := by
  constructor <;> decide

/-- Claim C1 (corrected): for every download request, a caller differing
from the owner parameter gets Forbidden (strict inequality, no override) —
in particular, for identities A, B with A not equal to B, a request by B for any
pair of A is Forbidden; for the owner, a missing resolved path gives
NotFound and an existing one returns exactly the joined path
path.join(UPLOAD_DIR, owner, folder, filename).  That path lies under the
namespace of the owner when the folder and filename parameters are plain single
segments, which the original claim asserted unconditionally. -/
theorem c1_download_authorizer (fs : FS) (caller owner folder filename : String) :
    (caller ≠ owner →
      downloadHandler fs caller owner folder filename = DownloadResult.forbidden) ∧
    (caller = owner →
      fs.existsPath (resolvedDownloadPath owner folder filename) = false →
      downloadHandler fs caller owner folder filename = DownloadResult.notFound) ∧
    (caller = owner →
      fs.existsPath (resolvedDownloadPath owner folder filename) = true →
      downloadHandler fs caller owner folder filename =
        DownloadResult.ok (resolvedDownloadPath owner folder filename)) ∧
    (plainSeg owner → plainSeg folder → plainSeg filename →
      resolvedDownloadPath owner folder filename =
        uploadRoot ++ [owner, folder, filename]) := by
  refine ⟨fun h => by rw [downloadHandler, if_pos h], ?_, ?_, ?_⟩
  · intro h hex
    rw [downloadHandler, if_neg (by simp [h]), if_neg (by rw [hex]; simp)]
  · intro h hex
    rw [downloadHandler, if_neg (by simp [h]), if_pos hex]
  · intro ho hf hn
    rw [resolvedDownloadPath, joinName_plain _ _ ho, joinName_plain _ _ hf,
      joinName_plain _ _ hn]
    simp

/-- Witness for the corrected C1: on a concrete two-user filesystem, bob is
Forbidden from the pair of alice, alice gets NotFound for a missing file, alice
gets the exact joined path for an existing file, and for these plain
parameters the path sits under the namespace of alice. -/
theorem c1_download_authorizer_witness :
    downloadHandler fsTwoUsers "bob" "alice" "abc" "f.txt" = DownloadResult.forbidden ∧
    downloadHandler fsTwoUsers "alice" "alice" "abc" "missing.txt" = DownloadResult.notFound ∧
    downloadHandler fsTwoUsers "bob" "bob" "secret.txt" "." =
      DownloadResult.ok (resolvedDownloadPath "bob" "secret.txt" ".") ∧
    resolvedDownloadPath "alice" "abc" "f.txt" = uploadRoot ++ ["alice", "abc", "f.txt"] :=
  ⟨(c1_download_authorizer fsTwoUsers "bob" "alice" "abc" "f.txt").1 (by decide),
   (c1_download_authorizer fsTwoUsers "alice" "alice" "abc" "missing.txt").2.1 rfl (by decide),
   (c1_download_authorizer fsTwoUsers "bob" "bob" "secret.txt" ".").2.2.1 rfl (by decide),
   (c1_download_authorizer fsTwoUsers "alice" "alice" "abc" "f.txt").2.2.2
     (by constructor; decide; constructor <;> decide)
     (by constructor; decide; constructor <;> decide)
     (by constructor; decide; constructor <;> decide)⟩

/-- Claim C2 (confirmed): the express.static middleware on the uploads root
serves every stored file at /uploads/<owner>/<folder>/<filename> to any
requester, with no session and no ownership input at all, while the download
route refuses the same triple to every caller other than the owner — the
owner-only rule is bypassable for every stored file. -/
theorem c2_static_bypass (fs : FS) (urlTail owner folder filename : String) (c : FileData)
    (hsplit : splitSegs urlTail = [owner, folder, filename])
    (ho : plainSeg owner) (hf : plainSeg folder) (hn : plainSeg filename)
    (hfile : fs.lookupFile (uploadRoot ++ [owner, folder, filename]) = some c) :
    staticServe fs urlTail = some c ∧
    ∀ caller, caller ≠ owner →
      downloadHandler fs caller owner folder filename = DownloadResult.forbidden := by
  constructor
  · rw [staticServe, hsplit]
    have hno : memB ".." [owner, folder, filename] = false := by
      rw [show memB ".." [owner, folder, filename] =
        if ".." = owner then true
        else if ".." = folder then true
        else if ".." = filename then true else false from rfl]
      rw [if_neg (fun hc => ho.2.2 hc.symm), if_neg (fun hc => hf.2.2 hc.symm),
        if_neg (fun hc => hn.2.2 hc.symm)]
    rw [if_neg (by rw [hno]; simp)]
    rw [joinName, hsplit]
    rw [List.foldl_cons, joinSeg_notdots _ _ ho.2.1 ho.2.2,
      List.foldl_cons, joinSeg_notdots _ _ hf.2.1 hf.2.2,
      List.foldl_cons, joinSeg_notdots _ _ hn.2.1 hn.2.2, List.foldl_nil]
    rw [show uploadRoot ++ [owner] ++ [folder] ++ [filename] =
      uploadRoot ++ [owner, folder, filename] by simp]
    exact hfile
  · intro caller hc
    rw [downloadHandler, if_pos hc]

/-- Witness for C2: the stored file f.txt of alice in folder abc is served by the
static route to an anonymous request, while the authenticated download of bob
request for the same triple is Forbidden. -/
theorem c2_static_bypass_witness :
    staticServe fsStat "alice/abc/f.txt" = some (FileData.bytes "X") ∧
    downloadHandler fsStat "bob" "alice" "abc" "f.txt" = DownloadResult.forbidden :=
  ⟨(c2_static_bypass fsStat "alice/abc/f.txt" "alice" "abc" "f.txt" (FileData.bytes "X")
      (by decide)
      (by constructor; decide; constructor <;> decide)
      (by constructor; decide; constructor <;> decide)
      (by constructor; decide; constructor <;> decide)
      (by decide)).1,
   (c2_static_bypass fsStat "alice/abc/f.txt" "alice" "abc" "f.txt" (FileData.bytes "X")
      (by decide)
      (by constructor; decide; constructor <;> decide)
      (by constructor; decide; constructor <;> decide)
      (by constructor; decide; constructor <;> decide)
      (by decide)).2 "bob" (by decide)⟩

/-- Claim C7 (confirmed): register fails with InvalidInput when either field
is empty, fails with AlreadyExists when the username is already present (the
state untouched in both cases), and registering the same username twice
leaves the originally stored verifier in place — first-writer-wins, with the
second call failing (AlreadyExists for a nonempty password, InvalidInput for
an empty one) and never overwriting. -/
theorem c7_register (hash : String → String) (st : ServerState) (u p1 p2 : String) :
    ((u = "" ∨ p1 = "") → signup hash st u p1 = (SignupResult.invalidInput, st)) ∧
    (∀ v, ¬(u = "" ∨ p1 = "") → lookupAssoc st.users u = some v →
      signup hash st u p1 = (SignupResult.alreadyExists, st)) ∧
    (¬(u = "" ∨ p1 = "") → lookupAssoc st.users u = none →
      (p2 ≠ "" →
        (signup hash (signup hash st u p1).2 u p2).1 = SignupResult.alreadyExists) ∧
      lookupAssoc ((signup hash (signup hash st u p1).2 u p2).2).users u = some (hash p1)) := by
  refine ⟨fun h => by rw [signup, if_pos h], ?_, ?_⟩
  · intro v hemp hv
    rw [signup, if_neg hemp, hv]
  · intro he hnew
    have hu : u ≠ "" := fun hc => he (Or.inl hc)
    have h1 : signup hash st u p1 =
        (SignupResult.ok,
         { users := (u, hash p1) :: st.users, fs := ensureNamespace st.fs u }) := by
      rw [signup, if_neg he, hnew]
    have hlook : lookupAssoc ((u, hash p1) :: st.users) u = some (hash p1) := by
      rw [show lookupAssoc ((u, hash p1) :: st.users) u =
        if u = u then some (hash p1) else lookupAssoc st.users u from rfl, if_pos rfl]
    constructor
    · intro hp2
      rw [h1, signup, if_neg (by rintro (hc | hc); exact hu hc; exact hp2 hc)]
      simp only [hlook]
    · rw [h1, signup]
      by_cases h2 : u = "" ∨ p2 = ""
      · rw [if_pos h2]
        exact hlook
      · rw [if_neg h2]
        simp only [hlook]

/-- Witness for C7: an empty password is InvalidInput; a duplicate username
is AlreadyExists with the state unchanged; registering dave twice leaves the
first verifier stored. -/
theorem c7_register_witness :
    signup (fun s => s) ⟨[], fsE⟩ "carol" "" = (SignupResult.invalidInput, ⟨[], fsE⟩) ∧
    signup (fun s => s) ⟨[("alice", "h")], fsE⟩ "alice" "pw" =
      (SignupResult.alreadyExists, ⟨[("alice", "h")], fsE⟩) ∧
    (signup (fun s => s) ((signup (fun s => s) ⟨[], fsE⟩ "dave" "pw1").2) "dave" "pw2").1 =
      SignupResult.alreadyExists ∧
    lookupAssoc
      ((signup (fun s => s) ((signup (fun s => s) ⟨[], fsE⟩ "dave" "pw1").2) "dave" "pw2").2).users
      "dave" = some "pw1" :=
  ⟨(c7_register (fun s => s) ⟨[], fsE⟩ "carol" "" "x").1 (Or.inr rfl),
   (c7_register (fun s => s) ⟨[("alice", "h")], fsE⟩ "alice" "pw" "x").2.1 "h" (by decide) rfl,
   ((c7_register (fun s => s) ⟨[], fsE⟩ "dave" "pw1" "pw2").2.2 (by decide) rfl).1 (by decide),
   ((c7_register (fun s => s) ⟨[], fsE⟩ "dave" "pw1" "pw2").2.2 (by decide) rfl).2⟩

/-- Claim C8 (confirmed): for a syntactically valid username (one whose
namespace path is nonempty) the guarded creation is idempotent — an existing
directory is left untouched, running it twice equals running it once, the
directory exists afterwards, and when it was missing every ancestor segment
is created too. -/
theorem c8_ensure_namespace_idempotent (fs : FS) (u : String) (h : userDirOf u ≠ []) :
    (fs.existsPath (userDirOf u) = true → ensureNamespace fs u = fs) ∧
    ensureNamespace (ensureNamespace fs u) u = ensureNamespace fs u ∧
    (ensureNamespace fs u).existsPath (userDirOf u) = true ∧
    (fs.existsPath (userDirOf u) = false →
      (allAncestors (userDirOf u)).all
        (fun q => memB q (ensureNamespace fs u).dirs) = true) := by
  have hex : (ensureNamespace fs u).existsPath (userDirOf u) = true := by
    rw [ensureNamespace]
    by_cases h1 : fs.existsPath (userDirOf u) = true
    · rw [if_pos h1]; exact h1
    · rw [if_neg h1, FS.existsPath, mkdirRec_dirs_mem fs _ h]
      simp
  refine ⟨fun h1 => by rw [ensureNamespace, if_pos h1], ?_, hex, ?_⟩
  · conv_lhs => rw [ensureNamespace]
    rw [if_pos hex]
  · intro h1
    rw [ensureNamespace, if_neg (by rw [h1]; simp), List.all_eq_true]
    intro q hq
    exact memB_foldl_insertPath_of_mem q _ fs.dirs hq

/-- Witness for C8: creating the namespace of alice from an empty filesystem is
idempotent and creates the uploads ancestor; on a filesystem where the
directory exists the operation is the identity. -/
theorem c8_ensure_namespace_idempotent_witness :
    ensureNamespace (ensureNamespace fsE "alice") "alice" = ensureNamespace fsE "alice" ∧
    (ensureNamespace fsE "alice").existsPath (userDirOf "alice") = true ∧
    (allAncestors (userDirOf "alice")).all
      (fun q => memB q (ensureNamespace fsE "alice").dirs) = true ∧
    ensureNamespace fsAlice "alice" = fsAlice :=
  ⟨(c8_ensure_namespace_idempotent fsE "alice" (by decide)).2.1,
   (c8_ensure_namespace_idempotent fsE "alice" (by decide)).2.2.1,
   (c8_ensure_namespace_idempotent fsE "alice" (by decide)).2.2.2 (by decide),
   (c8_ensure_namespace_idempotent fsAlice "alice" (by decide)).1 (by decide)⟩

/-- Closed form of the upload handler on a successfully parsed batch with
one field holding one file. -/
theorem uploadHandler_single (fs0 : FS) (u draw key name tmp c : String) :
    uploadHandler fs0 u draw true [(key, [UFile.mk name tmp c])] =
      (UploadResult.success draw,
       ((((ensureNamespace fs0 u).mkdirRec (uploadDest u draw)).writeFile
           (uploadDest u draw ++ [tmp]) (FileData.bytes c)).renameFile
           (uploadDest u draw ++ [tmp]) (joinName (uploadDest u draw) name)).writeFile
         (uploadDest u draw ++ ["index.html"]) (FileData.index u draw [name])) := by
  rw [uploadHandler]
  simp [writeTmpFiles, moveAll, indexNames, indexEntries, collectSome]

/-- File lookups see through namespace creation and directory creation. -/
theorem lookupFile_ensure_mkdir (fs0 : FS) (u : String) (q p : FPath) :
    ((ensureNamespace fs0 u).mkdirRec q).lookupFile p = fs0.lookupFile p := by
  rw [FS.lookupFile, mkdirRec_files, ensureNamespace_files, FS.lookupFile]

/-- Counterexample to claim C5 as stated: a successfully parsed batch of
k = 2 files posted under one multipart field yields a successful ingest whose
folder does not contain b.txt under its original name (only the first file
of the field is renamed; the second stays under its temporary name) and
whose generated index lists only the first file. -/
theorem c5_counterexample :
    (uploadHandler fsAlice "alice" "abc" true batchTwo).1 = UploadResult.success "abc" ∧
    (uploadHandler fsAlice "alice" "abc" true batchTwo).2.lookupFile
      ["uploads", "alice", "abc", "a.txt"] = some (FileData.bytes "A") ∧
    (uploadHandler fsAlice "alice" "abc" true batchTwo).2.lookupFile
      ["uploads", "alice", "abc", "b.txt"] = none ∧
    (uploadHandler fsAlice "alice" "abc" true batchTwo).2.lookupFile
      ["uploads", "alice", "abc", "tmp2"] = some (FileData.bytes "B") ∧
    indexNames batchTwo = some ["a.txt"] := by
  refine ⟨by decide, by decide, by decide, by decide, by decide⟩

/-- Claim C5 (corrected, amended): for a successfully parsed batch of
exactly one file whose name is a plain segment other than index.html, ingest
succeeds and the freshly allocated folder contains exactly that file under
its original client-supplied name plus exactly one generated index document
listing its name with an (owner, folder_id, filename) link; for k at least 2
only the first file per field keeps its original name and the index can omit
files, as the counterexample shows. -/
theorem c5_single_file_batch (fs0 : FS) (u draw key name tmp c : String)
    (hjoin : joinName (uploadDest u draw) name = uploadDest u draw ++ [name])
    (hname : name ≠ "index.html")
    (hfresh : ∀ p : FPath, pathHasBase (uploadDest u draw) p = true →
      fs0.lookupFile p = none) :
    (uploadHandler fs0 u draw true [(key, [UFile.mk name tmp c])]).1 =
      UploadResult.success draw ∧
    ∀ p : FPath, pathHasBase (uploadDest u draw) p = true →
      (uploadHandler fs0 u draw true [(key, [UFile.mk name tmp c])]).2.lookupFile p =
        (if p = uploadDest u draw ++ [name] then some (FileData.bytes c)
         else if p = uploadDest u draw ++ ["index.html"] then
           some (FileData.index u draw [name])
         else none) := by
  constructor
  · rw [uploadHandler_single]
  · intro p hbase
    rw [uploadHandler_single]
    have hsrc : lookupAssoc
        (((ensureNamespace fs0 u).mkdirRec (uploadDest u draw)).writeFile
          (uploadDest u draw ++ [tmp]) (FileData.bytes c)).files
        (uploadDest u draw ++ [tmp]) = some (FileData.bytes c) := by
      simp [FS.writeFile, lookupAssoc]
    have hnone : fs0.lookupFile p = none := hfresh p hbase
    simp only [lookupFile_write, lookupFile_rename, hsrc, hjoin,
      lookupFile_ensure_mkdir, hnone]
    have hni : ¬ ("index.html" = name) := fun hc => hname hc.symm
    by_cases hp1 : p = uploadDest u draw ++ [name]
    · simp [hp1, hni, hname]
    · by_cases hp2 : p = uploadDest u draw ++ ["index.html"]
      · simp [hp2, hni, hname]
      · have hd1 : ¬ (uploadDest u draw ++ ["index.html"] = p) :=
          fun hc => hp2 hc.symm
        have hd2 : ¬ (uploadDest u draw ++ [name] = p) :=
          fun hc => hp1 hc.symm
        by_cases hp3 : p = uploadDest u draw ++ [tmp]
        · by_cases htn : tmp = name
          · simp [hp3, htn, hni]
          · by_cases hti : tmp = "index.html"
            · simp [hp3, hti, hni]
            · have hit : ¬ ("index.html" = tmp) := fun hc => hti hc.symm
              have hnt : ¬ (name = tmp) := fun hc => htn hc.symm
              simp [hp3, hit, hnt, htn, hti]
        · have hd3 : ¬ (uploadDest u draw ++ [tmp] = p) :=
            fun hc => hp3 hc.symm
          simp [hd1, hd2, hd3, hp1, hp2, hp3]

/-- Witness for the amended C5: uploading the single file a.txt produces a
successful ingest, the file under its original name, the generated index
listing it, and nothing else in the folder. -/
theorem c5_single_file_batch_witness :
    (uploadHandler fsAlice "alice" "abc" true [("f", [UFile.mk "a.txt" "tmp1" "A"])]).1 =
      UploadResult.success "abc" ∧
    (uploadHandler fsAlice "alice" "abc" true [("f", [UFile.mk "a.txt" "tmp1" "A"])]).2.lookupFile
      ["uploads", "alice", "abc", "a.txt"] = some (FileData.bytes "A") ∧
    (uploadHandler fsAlice "alice" "abc" true [("f", [UFile.mk "a.txt" "tmp1" "A"])]).2.lookupFile
      ["uploads", "alice", "abc", "index.html"] =
      some (FileData.index "alice" "abc" ["a.txt"]) ∧
    (uploadHandler fsAlice "alice" "abc" true [("f", [UFile.mk "a.txt" "tmp1" "A"])]).2.lookupFile
      ["uploads", "alice", "abc", "zzz.txt"] = none := by
  have h := c5_single_file_batch fsAlice "alice" "abc" "f" "a.txt" "tmp1" "A"
    (by decide) (by decide) (fun p hp => rfl)
  exact ⟨h.1, by decide, by decide, by decide⟩

/-- Counterexample to claim C3 as stated: the drawn folder id abc already
exists under the namespace of alice, yet the upload succeeds with that very id —
no redraw, no AllocationExhausted — and the prior contents of the colliding
folder are still there afterwards, i.e. the existing folder was silently
reused. -/
theorem c3_counterexample :
    fsColl.existsPath (uploadDest "alice" "abc") = true ∧
    (uploadHandler fsColl "alice" "abc" true [("f", [UFile.mk "new.txt" "tmpN" "NEW"])]).1 =
      UploadResult.success "abc" ∧
    (uploadHandler fsColl "alice" "abc" true [("f", [UFile.mk "new.txt" "tmpN" "NEW"])]).2.lookupFile
      ["uploads", "alice", "abc", "old.txt"] = some (FileData.bytes "OLD") :=
  ⟨by decide, by decide, by decide⟩

/-- Claim C3 (corrected): allocation draws one random id and creates the
directory unconditionally with recursive mkdir; there is no existence check,
no redraw, no retry bound and no AllocationExhausted failure.  When the
drawn id collides with an existing folder the upload proceeds into that
folder with the same id, and any prior file not clashing with the uploaded
names survives the ingest. -/
theorem c3_allocation_no_retry (fs : FS) (u draw key name tmp c oldName : String)
    (oldData : FileData)
    (hcol : fs.existsPath (uploadDest u draw) = true)
    (hold : fs.lookupFile (uploadDest u draw ++ [oldName]) = some oldData)
    (h1 : uploadDest u draw ++ [oldName] ≠ joinName (uploadDest u draw) name)
    (h2 : oldName ≠ tmp) (h3 : oldName ≠ "index.html") :
    (uploadHandler fs u draw true [(key, [UFile.mk name tmp c])]).1 =
      UploadResult.success draw ∧
    (uploadHandler fs u draw true [(key, [UFile.mk name tmp c])]).2.lookupFile
      (uploadDest u draw ++ [oldName]) = some oldData := by
  rw [uploadHandler_single]
  refine ⟨rfl, ?_⟩
  have hsrc : lookupAssoc
      (((ensureNamespace fs u).mkdirRec (uploadDest u draw)).writeFile
        (uploadDest u draw ++ [tmp]) (FileData.bytes c)).files
      (uploadDest u draw ++ [tmp]) = some (FileData.bytes c) := by
    simp [FS.writeFile, lookupAssoc]
  simp only [lookupFile_write, lookupFile_rename, hsrc, lookupFile_ensure_mkdir]
  have hio : ¬ ("index.html" = oldName) := fun hc => h3 hc.symm
  have hj : ¬ (joinName (uploadDest u draw) name = uploadDest u draw ++ [oldName]) :=
    fun hc => h1 hc.symm
  have hto : ¬ (tmp = oldName) := fun hc => h2 hc.symm
  simp [hio, hj, h2, hto, hold]

/-- Witness for the corrected C3: the concrete collision on folder abc under
alice with a fresh file new.txt. -/
theorem c3_allocation_no_retry_witness :
    (uploadHandler fsColl "alice" "abc" true [("f", [UFile.mk "new.txt" "tmpN" "NEW"])]).1 =
      UploadResult.success "abc" ∧
    (uploadHandler fsColl "alice" "abc" true [("f", [UFile.mk "new.txt" "tmpN" "NEW"])]).2.lookupFile
      (uploadDest "alice" "abc" ++ ["old.txt"]) = some (FileData.bytes "OLD") :=
  c3_allocation_no_retry fsColl "alice" "abc" "f" "new.txt" "tmpN" "NEW" "old.txt"
    (FileData.bytes "OLD") (by decide) (by decide) (by decide) (by decide) (by decide)

/-- Counterexample to claim C4 as stated: the client-supplied filename
../escape.txt makes the rename loop write outside the allocated share
folder — the uploaded bytes land at uploads/alice/escape.txt, a path not
below uploads/alice/abc, while the ingest still reports success. -/
theorem c4_counterexample :
    (uploadHandler fsAlice "alice" "abc" true batchEsc).1 = UploadResult.success "abc" ∧
    (uploadHandler fsAlice "alice" "abc" true batchEsc).2.lookupFile
      ["uploads", "alice", "escape.txt"] = some (FileData.bytes "DATA") ∧
    pathHasBase (uploadDest "alice" "abc") ["uploads", "alice", "escape.txt"] = false :=
  ⟨by decide, by decide, by decide⟩

/-- Claim C4 (corrected): a client-supplied filename whose segments contain
no ".." resolves below the allocated folder, and the rename writes only at
that resolved destination; filenames containing ".." segments can place the
write outside the folder, as the counterexample shows. -/
theorem c4_traversal_free_writes_inside (fs : FS) (up src : FPath) (name : String)
    (h : memB ".." (splitSegs name) = false) :
    pathHasBase up (joinName up name) = true ∧
    ∀ p c2, (fs.renameFile src (joinName up name)).lookupFile p = some c2 →
      fs.lookupFile p = some c2 ∨ p = joinName up name := by
  constructor
  · rcases foldl_joinSeg_extends (splitSegs name) up h with ⟨r, hr⟩
    rw [joinName, hr]
    exact pathHasBase_append up r
  · intro p c2 hl
    rw [lookupFile_rename] at hl
    cases hcase : lookupAssoc fs.files src with
    | none =>
      simp only [hcase] at hl
      exact Or.inl hl
    | some c0 =>
      simp only [hcase] at hl
      by_cases hd : joinName up name = p
      · exact Or.inr hd.symm
      · rw [if_neg hd] at hl
        by_cases hs : p = src
        · rw [if_pos hs] at hl; cases hl
        · rw [if_neg hs] at hl; exact Or.inl hl

/-- Witness for the corrected C4: a nested but traversal-free name stays
below the folder, and a rename to it preserves or creates only that path. -/
theorem c4_traversal_free_writes_inside_witness :
    pathHasBase ["uploads", "alice", "abc"]
      (joinName ["uploads", "alice", "abc"] "sub/a.txt") = true ∧
    (fsStat.lookupFile ["uploads", "alice", "abc", "f.txt"] = some (FileData.bytes "X") ∨
      (["uploads", "alice", "abc", "f.txt"] : FPath) =
        joinName ["uploads", "alice", "abc"] "sub/a.txt") :=
  ⟨(c4_traversal_free_writes_inside fsStat ["uploads", "alice", "abc"] [] "sub/a.txt"
      (by decide)).1,
   (c4_traversal_free_writes_inside fsStat ["uploads", "alice", "abc"] [] "sub/a.txt"
      (by decide)).2 ["uploads", "alice", "abc", "f.txt"] (FileData.bytes "X") (by decide)⟩

/-- Counterexample to claim C6 as stated: an empty batch does fail with
EmptyBatch, but the namespace is changed — the pre-created share folder abc,
absent before the request, is now a listable directory in the tree of alice. -/
theorem c6_counterexample :
    (uploadHandler fsAlice "alice" "abc" true []).1 = UploadResult.emptyBatch ∧
    fsAlice.existsPath ["uploads", "alice", "abc"] = false ∧
    listFiles fsAlice 2 ["uploads", "alice"] = [] ∧
    listFiles (uploadHandler fsAlice "alice" "abc" true []).2 2 ["uploads", "alice"] =
      [TreeNode.directory "abc" []] :=
  ⟨by decide, by decide, rfl, rfl⟩

/-- Claim C6 (corrected): an upload batch with zero files fails with
EmptyBatch and writes no file, but the share folder pre-created before
parsing is not removed: it exists afterwards and appears in the directory
listing of the owner. -/
theorem c6_empty_batch_leaves_folder (fs0 : FS) (u draw : String)
    (h : uploadDest u draw = userDirOf u ++ [draw]) :
    (uploadHandler fs0 u draw true []).1 = UploadResult.emptyBatch ∧
    (uploadHandler fs0 u draw true []).2.files = fs0.files ∧
    (uploadHandler fs0 u draw true []).2.existsPath (uploadDest u draw) = true ∧
    memB draw ((uploadHandler fs0 u draw true []).2.readdir (userDirOf u)) = true := by
  have hrun : uploadHandler fs0 u draw true [] =
      (UploadResult.emptyBatch, (ensureNamespace fs0 u).mkdirRec (uploadDest u draw)) := by
    rw [uploadHandler]
    simp [writeTmpFiles]
  have hne : uploadDest u draw ≠ [] := by rw [h]; simp
  have hdirs : memB (uploadDest u draw)
      ((ensureNamespace fs0 u).mkdirRec (uploadDest u draw)).dirs = true :=
    mkdirRec_dirs_mem _ _ hne
  refine ⟨by rw [hrun], ?_, ?_, ?_⟩
  · rw [hrun, mkdirRec_files, ensureNamespace_files]
  · rw [hrun, FS.existsPath, hdirs]
    simp
  · rw [hrun]
    exact memB_readdir_of_dir _ _ _ draw ((memB_iff_mem _ _).mp hdirs)
      (by rw [h]; exact childNameOf_append _ _)

/-- Witness for the corrected C6: the empty batch on the namespace of alice with
draw xyz leaves a listable empty folder behind. -/
theorem c6_empty_batch_leaves_folder_witness :
    (uploadHandler fsAlice "alice" "xyz" true []).1 = UploadResult.emptyBatch ∧
    (uploadHandler fsAlice "alice" "xyz" true []).2.files = fsAlice.files ∧
    (uploadHandler fsAlice "alice" "xyz" true []).2.existsPath (uploadDest "alice" "xyz") = true ∧
    memB "xyz" ((uploadHandler fsAlice "alice" "xyz" true []).2.readdir (userDirOf "alice")) = true :=
  c6_empty_batch_leaves_folder fsAlice "alice" "xyz" (by decide)

/-- Claim C10 (confirmed): whenever the upload handler returns success, the
returned folder id is the drawn one and index.html in the folder holds the
generated index document — written after the rename loop to the fixed name —
so a client file uploaded as index.html is overwritten and the stored
index.html is never raw client bytes. -/
theorem c10_index_overwrites (fs0 : FS) (u draw : String) (batch : Batch)
    (d : String) (fsr : FS)
    (h : uploadHandler fs0 u draw true batch = (UploadResult.success d, fsr)) :
    d = draw ∧
    fsr.lookupFile (uploadDest u draw ++ ["index.html"]) =
      (indexNames batch).map (fun names => FileData.index u draw names) ∧
    isIndexDoc (fsr.lookupFile (uploadDest u draw ++ ["index.html"])) = true := by
  rw [uploadHandler] at h
  simp only [if_true] at h
  by_cases hb : batch.length = 0
  · rw [if_pos hb] at h
    simp at h
  · rw [if_neg hb] at h
    cases hm : moveAll (uploadDest u draw)
        (writeTmpFiles (uploadDest u draw)
          ((ensureNamespace fs0 u).mkdirRec (uploadDest u draw)) batch) batch with
    | error fsc =>
      rw [hm] at h
      simp at h
    | ok fs4 =>
      rw [hm] at h
      cases hi : indexNames batch with
      | none =>
        rw [hi] at h
        simp at h
      | some names =>
        rw [hi] at h
        rw [Prod.mk.injEq] at h
        obtain ⟨h1, h2⟩ := h
        injection h1 with hd
        refine ⟨hd.symm, ?_, ?_⟩
        · rw [← h2, lookupFile_write, if_pos rfl]
          rfl
        · rw [← h2, lookupFile_write, if_pos rfl]
          rfl

/-- Witness for C10: a batch whose only file is named index.html ends with
the generated index document stored at index.html, not the uploaded bytes. -/
theorem c10_index_overwrites_witness :
    ((uploadHandler fsE "alice" "abc" true batchIdx).2.lookupFile
      (uploadDest "alice" "abc" ++ ["index.html"]) =
      (indexNames batchIdx).map (fun names => FileData.index "alice" "abc" names)) ∧
    isIndexDoc ((uploadHandler fsE "alice" "abc" true batchIdx).2.lookupFile
      (uploadDest "alice" "abc" ++ ["index.html"])) = true := by
  have h := c10_index_overwrites fsE "alice" "abc" batchIdx "abc"
    ((uploadHandler fsE "alice" "abc" true batchIdx).2) (by decide)
  exact ⟨h.2.1, h.2.2⟩
